import Mathlib

/-!
Verification of the nofx position-ledger and settlement core.

Shallow embedding of the position/ledger state machine of
`src/tools/a_stock_data_tools.py` and `src/agent_service/agent_astock.py`.

Modelling conventions:
* A line of a line-delimited JSON file is `Option R`: `none` stands for a
  blank line or a line whose processing raises inside the per-line
  `try/except` (invalid JSON, ill-typed fields); every reader in the source
  skips such lines, which the embedding renders as `List.filterMap id`.
* Python floats are embedded as `ℚ` (exact arithmetic); Python ints as `Int`;
  Python strings as `String` (Lean's `<` on `String` is lexicographic on
  code points, as Python's is).
* A Python dict is an association list in insertion order; `dict.get k`
  with no default is `(List.lookup k d).join` when values may be `None`,
  and assignment is `dictSet` (replace if present, else append).
* Python's stable `list.sort(key, reverse=True)` followed by `[0]`, and the
  running-maximum loops, both select the first element attaining the
  maximal key; the loops are embedded as the very folds the source runs.
-/

namespace NoFX

/-- The `this_action` object written with a ledger snapshot
(`{"action": ..., "symbol": ..., "amount": ...}`). -/
structure TradeAction where
  act : String
  symbol : String
  amount : ℚ
deriving DecidableEq, Repr

/-- One parsed ledger line (a `PositionSnapshot` document of
`position.jsonl`).  `date`, `id` and `this_action` are optional because the
source reads them with `doc.get`; `positions` defaults to `{}` when absent,
so it is a plain association list. -/
structure PositionRecord where
  date : Option String
  id : Option Int
  this_action : Option TradeAction
  positions : List (String × ℚ)
deriving DecidableEq, Repr

/-- A raw line of `position.jsonl`: `none` is a blank or malformed line. -/
abbrev LedgerLine := Option PositionRecord

/-- The parseable records of a ledger file, in file order. -/
def recordsOf (lines : List LedgerLine) : List PositionRecord :=
  lines.filterMap (fun l => l)

/-- The parseable records dated exactly `d` (`doc.get("date") == d`). -/
def recsAt (lines : List LedgerLine) (d : String) : List PositionRecord :=
  (recordsOf lines).filter (fun r => decide (r.date = some d))

/-- Python string comparison on the underlying code-point sequences
(executable rendering of the lexicographic order). -/
def ltbChars : List Char → List Char → Bool
  | [], [] => false
  | [], _ :: _ => true
  | _ :: _, [] => false
  | a :: as, b :: bs => if a < b then true else if b < a then false else ltbChars as bs

/-- Python string comparison `s < t` (code-point lexicographic). -/
def strLtb (s t : String) : Bool :=
  ltbChars s.data t.data

/-- Truthiness filter of `get_today_init_position` / step 3 of
`get_latest_position`: `record_date and record_date < today_date`
(an absent or empty date string is falsy in Python). -/
def isBefore (today : String) (r : PositionRecord) : Bool :=
  match r.date with
  | some d => decide (d ≠ "") && strLtb d today
  | none => false

/-- The parseable records dated strictly before `today`, in file order. -/
def recsBefore (lines : List LedgerLine) (today : String) : List PositionRecord :=
  (recordsOf lines).filter (isBefore today)

/-- Sort key of step 3: `(x.get("date", ""), x.get("id", 0))`. -/
def recKey (r : PositionRecord) : String × Int :=
  (r.date.getD "", r.id.getD 0)

/-- Python tuple comparison `(date, id) < (date', id')`. -/
def keyLtb (a b : String × Int) : Bool :=
  strLtb a.1 b.1 || (decide (a.1 = b.1) && decide (a.2 < b.2))

/-- One iteration of the per-date scan loop of `get_latest_position`
(steps 1 and 2): remember the id and positions whenever
`doc.get("id", -1) > max_id`. -/
def scanStep (d : String) (st : Int × List (String × ℚ)) (r : PositionRecord) :
    Int × List (String × ℚ) :=
  if r.date = some d then
    (if st.1 < r.id.getD (-1) then (r.id.getD (-1), r.positions) else st)
  else st

/-- The per-date scan of `get_latest_position` (steps 1 and 2), started from
`max_id = -1`, `latest = {}`. -/
def scanDate (lines : List LedgerLine) (d : String) : Int × List (String × ℚ) :=
  (recordsOf lines).foldl (scanStep d) (-1, [])

/-- The step-3 selection loop: Python's stable
`sort(key=(date, id), reverse=True)` followed by `[0]` returns the first
record (in file order) with the lexicographically maximal `(date, id)` key,
which is what this fold computes. -/
def pickBest (acc : Option PositionRecord) (r : PositionRecord) : Option PositionRecord :=
  match acc with
  | none => some r
  | some b => if keyLtb (recKey b) (recKey r) then some r else some b

/-- Step 3 of `get_latest_position` (also the body of
`get_today_init_position`): the `(date, id)`-maximal record among those
dated strictly before `today`, if any. -/
def bestBefore (lines : List LedgerLine) (today : String) : Option PositionRecord :=
  (recsBefore lines today).foldl pickBest none

/-- Embedding of `get_latest_position(today_date, signature)` of
`src/tools/a_stock_data_tools.py`.  The ledger file is `none` when missing;
`prevDate` is the string returned by `get_yesterday_date(today_date)`,
passed explicitly (the source calls it between steps 1 and 2). -/
def get_latest_position (file : Option (List LedgerLine)) (today prevDate : String) :
    List (String × ℚ) × Int :=
  match file with
  | none => ([], -1)
  | some lines =>
    let s1 := scanDate lines today
    if 0 ≤ s1.1 ∧ s1.2 ≠ [] then (s1.2, s1.1)
    else
      let s2 := scanDate lines prevDate
      if 0 ≤ s2.1 ∧ s2.2 ≠ [] then (s2.2, s2.1)
      else
        match bestBefore lines today with
        | some r => (r.positions, r.id.getD (-1))
        | none => ([], -1)

/-- Embedding of `get_today_init_position(today_date, signature)`: the strictly-before
scan alone.  (The source also computes `get_yesterday_date(today_date)` but
never uses it.) -/
def get_today_init_position (file : Option (List LedgerLine)) (today : String) :
    List (String × ℚ) :=
  match file with
  | none => []
  | some lines =>
    match bestBefore lines today with
    | some r => r.positions
    | none => []

/-- Default `initial_cash` of `BaseAgentAStock` (the value
`add_no_trade_record` reaches when it synthesizes a base snapshot). -/
def defaultInitialCash : ℚ := 100000

/-- The no-trade action object: action "no_trade", empty symbol, amount 0. -/
def noTradeAction : TradeAction := ⟨"no_trade", "", 0⟩

/-- Embedding of `add_no_trade_record(today_date, signature)`: the resulting ledger file
content.  A missing file behaves as empty (the source opens it in append
mode after `mkdir -p`). -/
def add_no_trade_record (file : Option (List LedgerLine)) (today prevDate : String) :
    List LedgerLine :=
  let base := get_latest_position file today prevDate
  let base := if base.1 = [] then ([("CASH", defaultInitialCash)], (0 : Int)) else base
  (file.getD []) ++ [some ⟨some today, some (base.2 + 1), some noTradeAction, base.1⟩]

/-- Python dict assignment `d[k] = v`: replace the binding in place if the
key is present, else append (insertion order preserved; dicts reached by
the source never hold duplicate keys). -/
def dictSet : List (String × ℚ) → String → ℚ → List (String × ℚ)
  | [], k, v => [(k, v)]
  | p :: rest, k, v => if p.1 = k then (k, v) :: rest else p :: dictSet rest k v

/-- Initial allocation of `register_agent`: a dict assigning 0 to every
tracked symbol, then the "CASH" key set to the initial cash. -/
def initPositions (symbols : List String) (cash : ℚ) : List (String × ℚ) :=
  dictSet (symbols.foldl (fun d s => dictSet d s 0) []) "CASH" cash

/-- Embedding of `BaseAgentAStock.register_agent` of `src/agent_service/agent_astock.py`:
if the position file exists it is left untouched (no-op with a warning),
otherwise a single snapshot `{date: init_date, id: 0, positions: ...}` is
written. -/
def register_agent (file : Option (List LedgerLine)) (symbols : List String)
    (cash : ℚ) (initDate : String) : List LedgerLine :=
  match file with
  | some lines => lines
  | none => [some ⟨some initDate, some 0, none, initPositions symbols cash⟩]

/-- Suffix test `symbol.endswith(".SH")`, rendered on the code-point lists so it is
executable. -/
def strEndsWith (s suf : String) : Bool :=
  List.isSuffixOf suf.data s.data

/-- Breakdown returned by `calculate_trade_cost` (a dict with exactly these
four keys in the source). -/
structure TradeCost where
  commission : ℚ
  stamp_tax : ℚ
  transfer_fee : ℚ
  total_cost : ℚ
deriving DecidableEq, Repr

/-- Embedding of `calculate_trade_cost(symbol, price, amount, direction)` of
`src/tools/a_stock_data_tools.py` (exact rational arithmetic in place of
Python floats). -/
def calculate_trade_cost (symbol : String) (price : ℚ) (amount : Int)
    (direction : String) : TradeCost :=
  let total_value := price * (amount : ℚ)
  let commission_rate : ℚ := 0.0003
  let commission := max (total_value * commission_rate) 5
  let stamp_tax := if direction = "sell" then total_value * 0.001 else 0
  let transfer_fee := if strEndsWith symbol ".SH" then total_value * 0.00001 else 0
  ⟨commission, stamp_tax, transfer_fee, commission + stamp_tax + transfer_fee⟩

/-- Round-half-to-even to an integer (Python's `round` tie rule), under
exact rational semantics. -/
def roundHalfEven (q : ℚ) : ℤ :=
  if q - ⌊q⌋ = 1 / 2 then (if ⌊q⌋ % 2 = 0 then ⌊q⌋ else ⌊q⌋ + 1) else round q

/-- Python's `round(x, 4)` under exact rational semantics. -/
def pyRound4 (q : ℚ) : ℚ :=
  (roundHalfEven (q * 10000) : ℚ) / 10000

/-- Embedding of `get_yesterday_profit(today_date, buy, sell, init_position, symbols)`:
one entry per requested symbol, `round((sell - buy) * weight, 4)` when both
prices are non-`None` and the held weight is positive, else `0.0`.  (The
source's `today_date` parameter is unused and its `stock_symbols` default
is the SSE-50 list; the symbol list is passed explicitly here.) -/
def get_yesterday_profit (buy sell : List (String × Option ℚ))
    (pos : List (String × ℚ)) (symbols : List String) : List (String × ℚ) :=
  symbols.map (fun s =>
    (s,
      match (List.lookup (s ++ "_price") buy).join,
          (List.lookup (s ++ "_price") sell).join with
      | some b, some c =>
        if 0 < (List.lookup s pos).getD 0 then
          pyRound4 ((c - b) * (List.lookup s pos).getD 0)
        else 0
      | _, _ => 0))

/-! ## Specification-style selection functions

These re-state the per-date and strictly-before selections through
`List.argmax` (first element attaining the maximal key), to be compared
with the loop folds above. -/

/-- Specification form of the per-date scan: the maximum `id` (default
`-1`) among records dated `d`, together with the positions of the first
record attaining it, answered only when that maximum is nonnegative. -/
def tierAt (lines : List LedgerLine) (d : String) : Int × List (String × ℚ) :=
  match (recsAt lines d).argmax (fun r => r.id.getD (-1)) with
  | some r => if 0 ≤ r.id.getD (-1) then (r.id.getD (-1), r.positions) else (-1, [])
  | none => (-1, [])

/-- Specification form of step 3: the `(date, id)`-lexicographically
maximal record among those dated strictly before `today`. -/
def tier3spec (lines : List LedgerLine) (today : String) :
    List (String × ℚ) × Int :=
  match (recsBefore lines today).argmax (fun r => toLex (recKey r)) with
  | some r => (r.positions, r.id.getD (-1))
  | none => ([], -1)

/-- The three-tier resolution, assembled from the specification-style
selections. -/
def specLatest (lines : List LedgerLine) (today prevDate : String) :
    List (String × ℚ) × Int :=
  let t1 := tierAt lines today
  if 0 ≤ t1.1 ∧ t1.2 ≠ [] then (t1.2, t1.1)
  else
    let t2 := tierAt lines prevDate
    if 0 ≤ t2.1 ∧ t2.2 ≠ [] then (t2.2, t2.1)
    else tier3spec lines today

/-- The per-date scan body once the date filter has been applied
(proof-side decomposition of `scanStep`). -/
def scanStep2 (st : Int × List (String × ℚ)) (r : PositionRecord) :
    Int × List (String × ℚ) :=
  if st.1 < r.id.getD (-1) then (r.id.getD (-1), r.positions) else st

/-- Ledger refuting C1 as stated: a record dated the query date exists
(with maximum id 2) but carries an empty positions mapping. -/
def c1CexLines : List LedgerLine :=
  [some ⟨some "2025-01-03", some 2, none, []⟩,
   some ⟨some "2025-01-01", some 0, none, [("CASH", 5)]⟩]

/-- Ledger refuting C10 as stated: a single record dated the resolved
previous trading day with an empty positions mapping. -/
def c10CexLines : List LedgerLine :=
  [some ⟨some "2025-01-02", some 5, none, []⟩]

/-- A finite sequence of `add_no_trade_record` calls, each given as
`(today_date, resolved previous trading day)`. -/
def applyAdds (L : List LedgerLine) (adds : List (String × String)) : List LedgerLine :=
  adds.foldl (fun acc a => add_no_trade_record (some acc) a.1 a.2) L

/-- The snapshot ids recorded at date `d`, in file order
(`doc.get("id", -1)`). -/
def idsAt (lines : List LedgerLine) (d : String) : List Int :=
  (recsAt lines d).map (fun r => r.id.getD (-1))

/-- Shape of the per-date record lists of a ledger reached from
registration (at `init`) by no-trade appends on the dates satisfying `P`:
the init date holds the id-0 snapshot, plus an id-1 snapshot once a
no-trade append has been run for it; every other appended date holds
exactly one snapshot; all other dates hold none. -/
def DateShape (init : String) (P : String → Prop) (L : List LedgerLine) : Prop :=
  ∀ d : String,
    ((d = init ∧ ¬ P d) → ∃ r, recsAt L d = [r] ∧ r.id = some 0) ∧
    ((d = init ∧ P d) → ∃ r s, recsAt L d = [r, s] ∧ r.id = some 0 ∧ s.id = some 1) ∧
    ((d ≠ init ∧ P d) → ∃ r, recsAt L d = [r]) ∧
    ((d ≠ init ∧ ¬ P d) → recsAt L d = [])

/-! ## Date-time model for `get_yesterday_date`

`get_yesterday_date` parses its input with `datetime.strptime` (format
chosen by whether the input contains a space), collects every key of every
`"Time Series*"` dict across the merged price file, parses each key with
`strptime(.., "%Y-%m-%d %H:%M:%S")` (a bare `try/except` skips keys that do
not match, including plain `"YYYY-MM-DD"` daily keys), takes the latest
parsed timestamp strictly before the input, and otherwise falls back to
calendar arithmetic (minus one day skipping weekends for date-only input,
minus one hour for date-time input). -/

/-- A parsed Gregorian date-time (proleptic calendar, as Python's
`datetime`). -/
structure DT where
  year : Nat
  month : Nat
  day : Nat
  hour : Nat
  minute : Nat
  second : Nat
deriving DecidableEq, Repr

def isLeap (y : Nat) : Bool :=
  (y % 4 = 0 && !(y % 100 = 0)) || y % 400 = 0

def daysInMonth (y m : Nat) : Nat :=
  if m = 2 then (if isLeap y then 29 else 28)
  else if m = 4 ∨ m = 6 ∨ m = 9 ∨ m = 11 then 30
  else 31

def digitVal (c : Char) : Option Nat :=
  if c.isDigit then some (c.toNat - 48) else none

def twoDigits (a b : Char) : Option Nat :=
  match digitVal a, digitVal b with
  | some x, some y => some (10 * x + y)
  | _, _ => none

def fourDigits (a b c d : Char) : Option Nat :=
  match twoDigits a b, twoDigits c d with
  | some x, some y => some (100 * x + y)
  | _, _ => none

def validDate (y m d : Nat) : Bool :=
  decide (1 ≤ y) && decide (1 ≤ m) && decide (m ≤ 12) && decide (1 ≤ d) &&
    decide (d ≤ daysInMonth y m)

def validTime (h mi s : Nat) : Bool :=
  decide (h ≤ 23) && decide (mi ≤ 59) && decide (s ≤ 59)

/-- Parse `datetime.strptime(s, "%Y-%m-%d")` on zero-padded input. -/
def parseDate (s : String) : Option DT :=
  match s.data with
  | [y1, y2, y3, y4, c1, m1, m2, c2, d1, d2] =>
    if c1 = '-' ∧ c2 = '-' then
      match fourDigits y1 y2 y3 y4, twoDigits m1 m2, twoDigits d1 d2 with
      | some y, some m, some d =>
        if validDate y m d then some ⟨y, m, d, 0, 0, 0⟩ else none
      | _, _, _ => none
    else none
  | _ => none

/-- Parse `datetime.strptime(s, "%Y-%m-%d %H:%M:%S")` on zero-padded input.  In
particular every date-only string (such as a daily bar key) fails to
parse. -/
def parseDateTime (s : String) : Option DT :=
  match s.data with
  | [y1, y2, y3, y4, c1, m1, m2, c2, d1, d2, sp, h1, h2, c3, mi1, mi2, c4, s1, s2] =>
    if c1 = '-' ∧ c2 = '-' ∧ sp = ' ' ∧ c3 = ':' ∧ c4 = ':' then
      match fourDigits y1 y2 y3 y4, twoDigits m1 m2, twoDigits d1 d2,
          twoDigits h1 h2, twoDigits mi1 mi2, twoDigits s1 s2 with
      | some y, some m, some d, some h, some mi, some sec =>
        if validDate y m d && validTime h mi sec then
          some ⟨y, m, d, h, mi, sec⟩
        else none
      | _, _, _, _, _, _ => none
    else none
  | _ => none

/-- Mixed-radix encoding; on field-valid date-times it orders exactly as
`datetime` comparison does. -/
def dtKey (t : DT) : Nat :=
  ((((t.year * 13 + t.month) * 32 + t.day) * 24 + t.hour) * 60 + t.minute) * 60 + t.second

/-- Subtraction `t - timedelta(days=1)` (date part; time-of-day fields unchanged). -/
def predDay (t : DT) : DT :=
  if 1 < t.day then { t with day := t.day - 1 }
  else if 1 < t.month then
    { t with month := t.month - 1, day := daysInMonth t.year (t.month - 1) }
  else { t with year := t.year - 1, month := 12, day := 31 }

def daysBeforeMonth (y m : Nat) : Nat :=
  ((List.range (m - 1)).map (fun i => daysInMonth y (i + 1))).sum

/-- Rata-die day number (0001-01-01 is day 1, a Monday). -/
def rataDie (t : DT) : Nat :=
  365 * (t.year - 1) +
    ((t.year - 1) / 4 - (t.year - 1) / 100 + (t.year - 1) / 400) +
    daysBeforeMonth t.year t.month + t.day

/-- Python `date.weekday()`: Monday = 0, ..., Sunday = 6. -/
def weekday (t : DT) : Nat := (rataDie t + 6) % 7

/-- Loop `while yesterday.weekday() >= 5: yesterday -= timedelta(days=1)`; the
loop body runs at most twice, so fuel 7 is ample. -/
def skipWeekendAux : Nat → DT → DT
  | 0, t => t
  | n + 1, t => if 5 ≤ weekday t then skipWeekendAux n (predDay t) else t

/-- The date-only calendar fallback: one day back, then skip the weekend. -/
def calendarYesterday (t : DT) : DT := skipWeekendAux 7 (predDay t)

/-- Subtraction `t - timedelta(hours=1)`. -/
def subHour (t : DT) : DT :=
  if 1 ≤ t.hour then { t with hour := t.hour - 1 }
  else { predDay t with hour := 23 }

def pad2 (n : Nat) : String := if n < 10 then "0" ++ toString n else toString n

def pad4 (n : Nat) : String :=
  if n < 10 then "000" ++ toString n
  else if n < 100 then "00" ++ toString n
  else if n < 1000 then "0" ++ toString n
  else toString n

/-- Format `strftime("%Y-%m-%d")`. -/
def formatDate (t : DT) : String :=
  pad4 t.year ++ "-" ++ pad2 t.month ++ "-" ++ pad2 t.day

/-- Format `strftime("%Y-%m-%d %H:%M:%S")`. -/
def formatDateTime (t : DT) : String :=
  formatDate t ++ " " ++ pad2 t.hour ++ ":" ++ pad2 t.minute ++ ":" ++ pad2 t.second

/-- A parsed line of the merged price file, reduced to what
`get_yesterday_date` reads from it: for each dict-valued entry, its key
name and the keys of its value. -/
abbrev PriceDoc := List (String × List String)

/-- A raw line of the merged price file (`none`: blank or malformed). -/
abbrev PriceLine := Option PriceDoc

/-- The union of the key sets of every `"Time Series*"` entry (the source
accumulates them in a Python set; only emptiness and the maximum of the
parsed timestamps are consumed, so a list is a faithful stand-in). -/
def collectTimestamps (lines : List PriceLine) : List String :=
  lines.foldl (fun acc l =>
    match l with
    | none => acc
    | some doc =>
      doc.foldl (fun acc2 kv =>
        if List.isPrefixOf "Time Series".data kv.1.data then acc2 ++ kv.2
        else acc2) acc) []

/-- The loop over `all_timestamps`: the latest timestamp parseable in the
full `"%Y-%m-%d %H:%M:%S"` format that is strictly earlier than the
input. -/
def maxEarlier (tss : List String) (input : DT) : Option DT :=
  tss.foldl (fun prev ts =>
    match parseDateTime ts with
    | none => prev
    | some t =>
      if dtKey t < dtKey input then
        match prev with
        | none => some t
        | some q => if dtKey q < dtKey t then some t else prev
      else prev) none

/-- Embedding of `get_yesterday_date(today_date)` of `src/tools/a_stock_data_tools.py`.
`file` is the merged price file (`none` when missing); `now` stands for
`datetime.now()`, consulted only when the input itself fails to parse. -/
def get_yesterday_date (file : Option (List PriceLine)) (today : String) (now : DT) :
    String :=
  let dateOnly := !(today.data.contains ' ')
  match (if dateOnly then parseDate today else parseDateTime today) with
  | none =>
    if dateOnly then formatDate (predDay now) else formatDateTime (subHour now)
  | some inputDt =>
    let fallback :=
      if dateOnly then formatDate (calendarYesterday inputDt)
      else formatDateTime (subHour inputDt)
    match file with
    | none => fallback
    | some lines =>
      let tss := collectTimestamps lines
      if tss.isEmpty then fallback
      else
        match maxEarlier tss inputDt with
        | none => fallback
        | some prev => if dateOnly then formatDate prev else formatDateTime prev

/-- A merged price file holding one symbol with one daily bar dated
2025-10-09 — the repository's own data format (date-only daily keys). -/
def dailyStoreCex : List PriceLine :=
  [some [("Time Series (Daily)", ["2025-10-09"])]]

/-! ## Bridging lemmas: the source loops compute argmax selections -/

/-- The executable char comparison agrees with lexicographic order. -/
theorem ltbChars_iff : ∀ as bs : List Char, ltbChars as bs = true ↔ List.Lex (· < ·) as bs := by
  intro as
  induction as with
  | nil =>
    intro bs
    cases bs with
    | nil => simp [ltbChars]
    | cons b bs => simp [ltbChars]; exact List.Lex.nil
  | cons a as ih =>
    intro bs
    cases bs with
    | nil => simp [ltbChars]
    | cons b bs =>
      simp only [ltbChars]
      split_ifs with h1 h2
      · simp only [true_iff]; exact List.Lex.rel h1
      · simp only [false_iff]
        intro h
        cases h with
        | cons h' => exact absurd h2 (lt_irrefl _)
        | rel h'' => exact absurd h'' (asymm h2)
      · have hab : a = b := le_antisymm (not_lt.mp h2) (not_lt.mp h1)
        subst hab
        rw [ih bs]
        constructor
        · exact List.Lex.cons
        · intro h
          cases h with
          | cons h' => exact h'
          | rel h'' => exact absurd h'' (lt_irrefl _)

/-- The executable string comparison agrees with `<` on `String`. -/
theorem strLtb_iff (s t : String) : strLtb s t = true ↔ s < t := by
  rw [strLtb, ltbChars_iff, String.lt_iff_toList_lt]
  exact Iff.rfl

/-- The executable tuple comparison agrees with the lexicographic order on
`String ×ₗ Int`. -/
theorem keyLtb_iff (a b : String × Int) : keyLtb a b = true ↔ toLex a < toLex b := by
  rw [Prod.Lex.lt_iff]
  simp [keyLtb, Bool.or_eq_true, Bool.and_eq_true, decide_eq_true_eq, strLtb_iff]

/-- The step-3 fold is `List.argmax` for the `(date, id)` key. -/
theorem pickBest_eq_argAux :
    pickBest = List.argAux (fun b c => toLex (recKey c) < toLex (recKey b)) := by
  funext acc r
  cases acc with
  | none => rfl
  | some b =>
    simp only [pickBest, List.argAux]
    by_cases h : toLex (recKey b) < toLex (recKey r)
    · rw [if_pos ((keyLtb_iff _ _).mpr h), if_pos h]
    · rw [if_neg (fun hb => h ((keyLtb_iff _ _).mp hb)), if_neg h]

theorem bestBefore_eq_argmax (lines : List LedgerLine) (today : String) :
    bestBefore lines today =
      (recsBefore lines today).argmax (fun r => toLex (recKey r)) := by
  rw [bestBefore, List.argmax, pickBest_eq_argAux]

theorem foldl_scanStep (d : String) :
    ∀ (l : List PositionRecord) (st : Int × List (String × ℚ)),
      l.foldl (scanStep d) st =
        (l.filter (fun r => decide (r.date = some d))).foldl scanStep2 st := by
  intro l
  induction l with
  | nil => intro st; rfl
  | cons r rest ih =>
    intro st
    by_cases h : r.date = some d
    · have hs : scanStep d st r = scanStep2 st r := by
        simp [scanStep, scanStep2, h]
      simp [List.filter_cons, h, hs, ih]
    · have hs : scanStep d st r = st := by simp [scanStep, h]
      simp [List.filter_cons, h, hs, ih]

/-- Simulation between the per-date running-maximum loop and the
`argmax`-by-id fold. -/
theorem scan_argmax_aux :
    ∀ (recs : List PositionRecord) (o : Option PositionRecord)
      (st : Int × List (String × ℚ)),
      ((o = none ∧ st = (-1, [])) ∨
        (∃ c, o = some c ∧
          ((0 ≤ c.id.getD (-1) ∧ st = (c.id.getD (-1), c.positions)) ∨
            (c.id.getD (-1) < 0 ∧ st = (-1, []))))) →
      ((recs.foldl (List.argAux fun b c => c.id.getD (-1) < b.id.getD (-1)) o = none ∧
          recs.foldl scanStep2 st = (-1, [])) ∨
        (∃ c,
          recs.foldl (List.argAux fun b c => c.id.getD (-1) < b.id.getD (-1)) o = some c ∧
          ((0 ≤ c.id.getD (-1) ∧ recs.foldl scanStep2 st = (c.id.getD (-1), c.positions)) ∨
            (c.id.getD (-1) < 0 ∧ recs.foldl scanStep2 st = (-1, []))))) := by
  intro recs
  induction recs with
  | nil =>
    intro o st h
    simpa using h
  | cons r rest ih =>
    intro o st h
    simp only [List.foldl_cons]
    apply ih
    rcases h with ⟨ho, hst⟩ | ⟨c, ho, hc⟩
    · subst ho; subst hst
      refine Or.inr ⟨r, rfl, ?_⟩
      rcases le_or_lt 0 (r.id.getD (-1)) with hge | hlt
      · have h1 : (-1 : Int) < r.id.getD (-1) := by omega
        exact Or.inl ⟨hge, by simp [scanStep2, h1]⟩
      · have h1 : ¬ (-1 : Int) < r.id.getD (-1) := by omega
        exact Or.inr ⟨hlt, by simp [scanStep2, h1]⟩
    · subst ho
      rcases hc with ⟨hge, hst⟩ | ⟨hlt, hst⟩
      · subst hst
        by_cases hcr : c.id.getD (-1) < r.id.getD (-1)
        · refine Or.inr ⟨r, ?_, Or.inl ⟨by omega, by simp [scanStep2, hcr]⟩⟩
          simp [List.argAux, hcr]
        · refine Or.inr ⟨c, ?_, Or.inl ⟨hge, by simp [scanStep2, hcr]⟩⟩
          simp [List.argAux, hcr]
      · subst hst
        rcases le_or_lt 0 (r.id.getD (-1)) with hge' | hlt'
        · have hcr : c.id.getD (-1) < r.id.getD (-1) := by omega
          have h1 : (-1 : Int) < r.id.getD (-1) := by omega
          refine Or.inr ⟨r, ?_, Or.inl ⟨hge', by simp [scanStep2, h1]⟩⟩
          simp [List.argAux, hcr]
        · have h1 : ¬ (-1 : Int) < r.id.getD (-1) := by omega
          by_cases hcr : c.id.getD (-1) < r.id.getD (-1)
          · refine Or.inr ⟨r, ?_, Or.inr ⟨hlt', by simp [scanStep2, h1]⟩⟩
            simp [List.argAux, hcr]
          · refine Or.inr ⟨c, ?_, Or.inr ⟨hlt, by simp [scanStep2, h1]⟩⟩
            simp [List.argAux, hcr]

/-- The per-date loop of `get_latest_position` computes the
specification-style per-date selection. -/
theorem scanDate_eq_fold (lines : List LedgerLine) (d : String) :
    scanDate lines d = (recsAt lines d).foldl scanStep2 (-1, []) := by
  rw [scanDate, foldl_scanStep]; rfl

theorem scanDate_eq_tierAt (lines : List LedgerLine) (d : String) :
    scanDate lines d = tierAt lines d := by
  have h := scan_argmax_aux (recsAt lines d) none (-1, []) (Or.inl ⟨rfl, rfl⟩)
  rw [scanDate_eq_fold, tierAt, List.argmax]
  rcases h with ⟨h1, h2⟩ | ⟨c, h1, hc⟩
  · rw [h1, h2]
  · rw [h1]
    rcases hc with ⟨hge, hst⟩ | ⟨hlt, hst⟩
    · rw [hst]; simp [hge]
    · have hn : ¬ 0 ≤ c.id.getD (-1) := by omega
      rw [hst]; simp [hn]

/-! ## C1: three-tier latest-position resolution -/

/-- C1 counterexample: parseable records dated exactly the query date
"2025-01-03" exist and their maximum id is 2, so the claim demands the
result `({}, 2)`; the code instead skips tier 1 (empty positions) and
answers from tier 3 with the "2025-01-01" snapshot. -/
theorem get_latest_position_tier1_skip_cex :
    recsAt c1CexLines "2025-01-03" ≠ [] ∧
    (recsAt c1CexLines "2025-01-03").map (fun r => r.id.getD (-1)) = [2] ∧
    get_latest_position (some c1CexLines) "2025-01-03" "2025-01-02" = ([("CASH", 5)], 0) ∧
    (([("CASH", (5 : ℚ))], (0 : Int)) ≠ (([], 2) : List (String × ℚ) × Int)) := by
  refine ⟨by decide, by decide, by decide, by decide⟩

/-- C1 (amended): three-tier resolution where tiers 1 and 2 answer only
when the scanned date has a record with nonnegative id and the first
record attaining the maximal id has a non-empty positions mapping;
otherwise resolution falls through, ending at the `(date, id)`-maximal
record dated strictly before the query date; a missing file yields
`({}, -1)`. -/
theorem get_latest_position_three_tier (lines : List LedgerLine) (today prevDate : String) :
    get_latest_position (some lines) today prevDate = specLatest lines today prevDate ∧
    get_latest_position none today prevDate = ([], -1) := by
  refine ⟨?_, rfl⟩
  show (let s1 := scanDate lines today
    if 0 ≤ s1.1 ∧ s1.2 ≠ [] then (s1.2, s1.1)
    else
      let s2 := scanDate lines prevDate
      if 0 ≤ s2.1 ∧ s2.2 ≠ [] then (s2.2, s2.1)
      else
        match bestBefore lines today with
        | some r => (r.positions, r.id.getD (-1))
        | none => ([], -1)) = specLatest lines today prevDate
  rw [specLatest, scanDate_eq_tierAt, scanDate_eq_tierAt, bestBefore_eq_argmax, tier3spec]

/-! ## C9: seeding equals tier 3 -/

/-- C9: `get_today_init_position` returns exactly what tier 3 of
`get_latest_position` computes — the positions of the
`(date, id)`-lexicographically maximal parseable record dated strictly
before the query date (empty when none exists or the file is missing) —
and is unaffected by records dated the query date itself. -/
theorem get_today_init_position_eq_tier3 (file : Option (List LedgerLine)) (today : String) :
    get_today_init_position file today = (tier3spec (file.getD []) today).1 ∧
    (∀ r : PositionRecord, r.date = some today →
      get_today_init_position (some ((file.getD []) ++ [some r])) today =
        get_today_init_position (some (file.getD [])) today) := by
  have hmain : ∀ lines : List LedgerLine,
      get_today_init_position (some lines) today = (tier3spec lines today).1 := by
    intro lines
    rw [get_today_init_position, bestBefore_eq_argmax, tier3spec]
    cases (recsBefore lines today).argmax (fun r => toLex (recKey r)) with
    | none => rfl
    | some r => rfl
  constructor
  · cases file with
    | none => rfl
    | some lines => exact hmain lines
  · intro r hr
    have hfilter : recsBefore ((file.getD []) ++ [some r]) today =
        recsBefore (file.getD []) today := by
      rw [recsBefore, recsBefore, recordsOf, recordsOf, List.filterMap_append,
        List.filter_append]
      have : isBefore today r = false := by
        rw [isBefore, hr]
        have : strLtb today today = false := by
          rw [Bool.eq_false_iff]
          intro hs
          exact absurd ((strLtb_iff _ _).mp hs) (lt_irrefl _)
        simp [this]
      simp [this]
    rw [get_today_init_position, get_today_init_position, bestBefore, bestBefore, hfilter]

/-- Witness for C9: appending a same-day record leaves the seeding
positions unchanged on a concrete ledger. -/
theorem get_today_init_position_eq_tier3_witness :
    get_today_init_position
        (some ((((some [] : Option (List LedgerLine)).getD []) ++
          [some ⟨some "2025-02-02", some 1, none, [("CASH", 3)]⟩]))) "2025-02-02" =
      get_today_init_position (some (((some [] : Option (List LedgerLine)).getD []))) "2025-02-02" :=
  (get_today_init_position_eq_tier3 (some []) "2025-02-02").2
    ⟨some "2025-02-02", some 1, none, [("CASH", 3)]⟩ rfl

/-! ## C10: empty-positions records and the first two tiers -/

/-- C10 counterexample: the claim says a record dated exactly the resolved
previous trading day with empty positions is never returned and its id is
discarded; here tier 3 returns precisely that record, id 5 included. -/
theorem get_latest_position_empty_prev_returned_cex :
    get_latest_position (some c10CexLines) "2025-01-03" "2025-01-02" = ([], 5) ∧
    c10CexLines = [some ⟨some "2025-01-02", some 5, none, []⟩] := by
  refine ⟨by decide, rfl⟩

/-- C10 (amended): tiers 1 and 2 answer only when the selected record's
positions mapping is non-empty (and its id nonnegative), so a same-day
empty-positions record is never returned by them and any answer with an
empty positions mapping comes from tier 3 — which can still return an
empty-positions record dated strictly before the query date. -/
theorem get_latest_position_empty_from_tier3 (lines : List LedgerLine)
    (today prevDate : String)
    (h : (get_latest_position (some lines) today prevDate).1 = []) :
    get_latest_position (some lines) today prevDate = tier3spec lines today := by
  simp only [get_latest_position] at h ⊢
  split_ifs at h ⊢ with h1 h2
  · exact absurd (by simpa using h) h1.2
  · exact absurd (by simpa using h) h2.2
  · rw [bestBefore_eq_argmax, tier3spec]

/-- Witness for C10 (amended): on an empty ledger the result has empty
positions and indeed equals the tier-3 value. -/
theorem get_latest_position_empty_from_tier3_witness :
    get_latest_position (some ([] : List LedgerLine)) "2025-01-03" "2025-01-02" =
      tier3spec [] "2025-01-03" :=
  get_latest_position_empty_from_tier3 [] "2025-01-03" "2025-01-02" rfl

/-! ## C3: no-trade append -/

/-- C3: `add_no_trade_record` appends exactly one record — dated `today`,
id = base id + 1, action `no_trade`, positions equal to the base returned
by `get_latest_position`; an empty base is replaced by the synthesized
all-cash snapshot with base id 0 (so the written id is 1).  No previously
written line is modified or deleted. -/
theorem add_no_trade_record_eq (file : Option (List LedgerLine)) (today prevDate : String) :
    add_no_trade_record file today prevDate =
      (file.getD []) ++
        [some ⟨some today,
          some ((if (get_latest_position file today prevDate).1 = [] then 0
            else (get_latest_position file today prevDate).2) + 1),
          some noTradeAction,
          if (get_latest_position file today prevDate).1 = [] then
            [("CASH", defaultInitialCash)]
          else (get_latest_position file today prevDate).1⟩] := by
  rw [add_no_trade_record]
  by_cases h : (get_latest_position file today prevDate).1 = []
  · simp [h]
  · simp [h]

theorem add_no_trade_record_spec (file : Option (List LedgerLine)) (today prevDate : String) :
    add_no_trade_record file today prevDate =
      (file.getD []) ++
        [some ⟨some today,
          some ((if (get_latest_position file today prevDate).1 = [] then 0
            else (get_latest_position file today prevDate).2) + 1),
          some noTradeAction,
          if (get_latest_position file today prevDate).1 = [] then
            [("CASH", defaultInitialCash)]
          else (get_latest_position file today prevDate).1⟩] ∧
    (add_no_trade_record file today prevDate).take (file.getD []).length = file.getD [] ∧
    (add_no_trade_record file today prevDate).length = (file.getD []).length + 1 := by
  have h1 := add_no_trade_record_eq file today prevDate
  refine ⟨h1, ?_, ?_⟩
  · rw [h1, List.take_left]
  · rw [h1]
    simp

/-! ## C5: trade-cost formula -/

/-- C5: the cost formula — commission `max(v * 0.0003, 5)`, stamp tax
`v * 0.001` only on sells, transfer fee `v * 0.00001` only for the `.SH`
suffix, total = sum — and the concrete SSE example from the spec. -/
theorem calculate_trade_cost_spec :
    (∀ (symbol : String) (price : ℚ) (amount : Int) (direction : String),
      (calculate_trade_cost symbol price amount direction).commission =
          max (price * (amount : ℚ) * (3 / 10000)) 5 ∧
      (calculate_trade_cost symbol price amount direction).stamp_tax =
          (if direction = "sell" then price * (amount : ℚ) * (1 / 1000) else 0) ∧
      (calculate_trade_cost symbol price amount direction).transfer_fee =
          (if strEndsWith symbol ".SH" then price * (amount : ℚ) * (1 / 100000) else 0) ∧
      (calculate_trade_cost symbol price amount direction).total_cost =
          (calculate_trade_cost symbol price amount direction).commission +
            (calculate_trade_cost symbol price amount direction).stamp_tax +
            (calculate_trade_cost symbol price amount direction).transfer_fee) ∧
    calculate_trade_cost "600519.SH" 1000 100 "sell" = ⟨30, 100, 1, 131⟩ := by
  constructor
  · intro symbol price amount direction
    refine ⟨by norm_num [calculate_trade_cost], ?_, ?_, by norm_num [calculate_trade_cost]⟩
    · rw [calculate_trade_cost]
      by_cases h : direction = "sell" <;> simp [h]
      all_goals norm_num
    · rw [calculate_trade_cost]
      by_cases h : strEndsWith symbol ".SH" <;> simp [h]
      all_goals norm_num
  · have hsh : strEndsWith "600519.SH" ".SH" = true := by decide
    rw [calculate_trade_cost]
    simp only [hsh, if_pos rfl, if_true, TradeCost.mk.injEq]
    have hv : (1000 : ℚ) * ((100 : Int) : ℚ) = 100000 := by norm_num
    rw [hv]
    have hmax : max ((100000 : ℚ) * 0.0003) 5 = 30 := by
      rw [max_eq_left] <;> norm_num
    rw [hmax]
    norm_num

/-! ## C6: profit attribution -/

/-- Input refuting C6 as stated: both prices present, weight 1, but the
exact product `0.00001` has more than four decimal places, so the stored
profit is the rounded value `0`, not the product. -/
theorem get_yesterday_profit_round_cex :
    List.lookup "AAA"
        (get_yesterday_profit [("AAA_price", some 0)]
          [("AAA_price", some (1 / 100000))] [("AAA", 1)] ["AAA"]) = some 0 ∧
    ((1 : ℚ) / 100000 - 0) * 1 = 1 / 100000 ∧ ((1 : ℚ) / 100000 ≠ 0) := by
  refine ⟨?_, by norm_num, by norm_num⟩
  have hkey : ("AAA" ++ "_price" : String) = "AAA_price" := rfl
  simp only [get_yesterday_profit, List.map_cons, List.map_nil, hkey]
  norm_num [List.lookup, pyRound4, roundHalfEven, round_eq]

/-- C6 (amended): the profit mapping holds every requested symbol as a key;
its value is `(close - open) * weight` rounded half-even to four decimal
places when both prices are present and the held weight is positive, and
exactly `0` otherwise. -/
theorem get_yesterday_profit_spec (buy sell : List (String × Option ℚ))
    (pos : List (String × ℚ)) (symbols : List String) (s : String)
    (hs : s ∈ symbols) :
    List.lookup s (get_yesterday_profit buy sell pos symbols) =
      some (match (List.lookup (s ++ "_price") buy).join,
          (List.lookup (s ++ "_price") sell).join with
        | some b, some c =>
          if 0 < (List.lookup s pos).getD 0 then
            pyRound4 ((c - b) * (List.lookup s pos).getD 0)
          else 0
        | _, _ => 0) := by
  induction symbols with
  | nil => cases hs
  | cons t rest ih =>
    by_cases h : s = t
    · subst h
      rw [get_yesterday_profit, List.map_cons, List.lookup]
      simp
    · have hb : (s == t) = false := beq_eq_false_iff_ne.mpr h
      have hs' : s ∈ rest := List.mem_of_ne_of_mem h hs
      rw [get_yesterday_profit, List.map_cons, List.lookup, hb]
      exact ih hs'

/-- Witness for C6 (amended) at a concrete input. -/
theorem get_yesterday_profit_spec_witness :
    List.lookup "X"
        (get_yesterday_profit [("X_price", some 1)] [("X_price", some 2)]
          [("X", 3)] ["X"]) =
      some (match (List.lookup ("X" ++ "_price") [("X_price", some (1 : ℚ))]).join,
          (List.lookup ("X" ++ "_price") [("X_price", some (2 : ℚ))]).join with
        | some b, some c =>
          if 0 < (List.lookup "X" [("X", (3 : ℚ))]).getD 0 then
            pyRound4 ((c - b) * (List.lookup "X" [("X", (3 : ℚ))]).getD 0)
          else 0
        | _, _ => 0) :=
  get_yesterday_profit_spec [("X_price", some 1)] [("X_price", some 2)]
    [("X", 3)] ["X"] "X" (by decide)

/-! ## C7: idempotent registration -/

theorem lookup_dictSet_self (d : List (String × ℚ)) (k : String) (v : ℚ) :
    List.lookup k (dictSet d k v) = some v := by
  induction d with
  | nil => simp [dictSet, List.lookup]
  | cons p rest ih =>
    obtain ⟨pk, pv⟩ := p
    rw [dictSet]
    dsimp only
    by_cases h : pk = k
    · simp [h, List.lookup]
    · have hb : (k == pk) = false := beq_eq_false_iff_ne.mpr fun he => h he.symm
      rw [if_neg h]
      simp only [List.lookup, hb]
      exact ih

theorem lookup_dictSet_ne (d : List (String × ℚ)) (k : String) (v : ℚ)
    (k' : String) (h : k' ≠ k) :
    List.lookup k' (dictSet d k v) = List.lookup k' d := by
  induction d with
  | nil =>
    have hb : (k' == k) = false := beq_eq_false_iff_ne.mpr h
    simp [dictSet, List.lookup, hb]
  | cons p rest ih =>
    obtain ⟨pk, pv⟩ := p
    rw [dictSet]
    dsimp only
    by_cases hp : pk = k
    · subst hp
      have hb : (k' == pk) = false := beq_eq_false_iff_ne.mpr h
      simp only [List.lookup, hb]
    · rw [if_neg hp]
      simp only [List.lookup]
      cases hk : (k' == pk) <;> simp [ih]

theorem lookup_foldl_dictSet_not_mem (s : String) :
    ∀ (ts : List String) (d : List (String × ℚ)), s ∉ ts →
      List.lookup s (ts.foldl (fun d t => dictSet d t 0) d) = List.lookup s d := by
  intro ts
  induction ts with
  | nil => intro d _; rfl
  | cons t rest ih =>
    intro d hs
    have hst : s ≠ t := fun h => hs (h ▸ List.mem_cons_self t rest)
    have hsr : s ∉ rest := fun h => hs (List.mem_cons_of_mem t h)
    rw [List.foldl_cons, ih _ hsr, lookup_dictSet_ne _ _ _ _ hst]

theorem lookup_foldl_dictSet_mem (s : String) :
    ∀ (ts : List String) (d : List (String × ℚ)), s ∈ ts →
      List.lookup s (ts.foldl (fun d t => dictSet d t 0) d) = some 0 := by
  intro ts
  induction ts with
  | nil => intro d hs; cases hs
  | cons t rest ih =>
    intro d hs
    by_cases hsr : s ∈ rest
    · rw [List.foldl_cons]
      exact ih _ hsr
    · have hst : s = t := by
        by_contra hne
        exact hsr (List.mem_of_ne_of_mem hne hs)
      subst hst
      rw [List.foldl_cons, lookup_foldl_dictSet_not_mem s rest _ hsr,
        lookup_dictSet_self]

/-- C7: the first registration on a missing ledger writes exactly one
snapshot — id 0, dated the init date, zero shares of every tracked symbol
plus `CASH` = initial cash; registering while the file exists is a no-op,
so registering twice leaves exactly one id-0 snapshot. -/
theorem register_agent_idempotent (symbols : List String) (cash : ℚ) (initDate : String) :
    register_agent none symbols cash initDate =
      [some ⟨some initDate, some 0, none, initPositions symbols cash⟩] ∧
    (∀ lines : List LedgerLine, register_agent (some lines) symbols cash initDate = lines) ∧
    register_agent (some (register_agent none symbols cash initDate)) symbols cash initDate =
      register_agent none symbols cash initDate ∧
    (register_agent (some (register_agent none symbols cash initDate)) symbols cash
        initDate).countP
        (fun l => match l with | some r => decide (r.id = some 0) | none => false) = 1 ∧
    List.lookup "CASH" (initPositions symbols cash) = some cash ∧
    (∀ s ∈ symbols, s ≠ "CASH" → List.lookup s (initPositions symbols cash) = some 0) := by
  refine ⟨rfl, fun lines => rfl, rfl, by simp [register_agent, List.countP_cons], ?_, ?_⟩
  · rw [initPositions, lookup_dictSet_self]
  · intro s hs hne
    rw [initPositions, lookup_dictSet_ne _ _ _ _ hne]
    exact lookup_foldl_dictSet_mem s symbols [] hs

/-- Witness for C7: a registered symbol starts with zero shares. -/
theorem register_agent_idempotent_witness :
    List.lookup "600519.SH" (initPositions ["600519.SH"] 100000) = some 0 :=
  (register_agent_idempotent ["600519.SH"] 100000 "2025-10-09").2.2.2.2.2
    "600519.SH" (by decide) (by decide)

/-! ## C8: malformed-line tolerance -/

/-- C8: a non-JSON line between two valid snapshots is skipped at line
granularity: both ledger reads give exactly the result they give with the
line absent (and in particular neither read raises). -/
theorem malformed_line_tolerance (l1 l2 : List LedgerLine) (today prevDate : String) :
    get_latest_position (some (l1 ++ none :: l2)) today prevDate =
      get_latest_position (some (l1 ++ l2)) today prevDate ∧
    get_today_init_position (some (l1 ++ none :: l2)) today =
      get_today_init_position (some (l1 ++ l2)) today := by
  have hrec : recordsOf (l1 ++ none :: l2) = recordsOf (l1 ++ l2) := by
    simp [recordsOf]
  have h1 : ∀ d, scanDate (l1 ++ none :: l2) d = scanDate (l1 ++ l2) d := fun d => by
    rw [scanDate, scanDate, hrec]
  have h2 : bestBefore (l1 ++ none :: l2) today = bestBefore (l1 ++ l2) today := by
    rw [bestBefore, bestBefore, recsBefore, recsBefore, hrec]
  constructor
  · simp only [get_latest_position, h1, h2]
  · simp only [get_today_init_position, h2]

/-! ## C4: monotonic ids per date -/

theorem recordsOf_append_single (L : List LedgerLine) (r : PositionRecord) :
    recordsOf (L ++ [some r]) = recordsOf L ++ [r] := by
  simp [recordsOf]

theorem recsAt_append_single (L : List LedgerLine) (r : PositionRecord) (d : String) :
    recsAt (L ++ [some r]) d = recsAt L d ++ (if r.date = some d then [r] else []) := by
  rw [recsAt, recsAt, recordsOf, recordsOf, List.filterMap_append, List.filter_append]
  congr 1
  by_cases h : r.date = some d
  · simp [h]
  · simp [h]

theorem bestBefore_mem (L : List LedgerLine) (today : String) (r : PositionRecord)
    (h : bestBefore L today = some r) : r ∈ recordsOf L := by
  rw [bestBefore_eq_argmax] at h
  have hmem : r ∈ recsBefore L today := List.argmax_mem (Option.mem_def.mpr h)
  exact List.mem_of_mem_filter hmem

/-- On a ledger whose records all have nonnegative ids, a non-empty answer
of `get_latest_position` always reports a nonnegative id. -/
theorem latest_good (L : List LedgerLine)
    (hA : ∀ r ∈ recordsOf L, 0 ≤ r.id.getD (-1) ∧ r.positions ≠ []) (d p : String) :
    (get_latest_position (some L) d p).1 = [] ∨
      0 ≤ (get_latest_position (some L) d p).2 := by
  simp only [get_latest_position]
  split_ifs with h1 h2
  · exact Or.inr h1.1
  · exact Or.inr h2.1
  · cases hbb : bestBefore L d with
    | none => exact Or.inl rfl
    | some r =>
      right
      exact (hA r (bestBefore_mem L d r hbb)).1

/-- When exactly one record is dated `d` and it has id 0 with non-empty
positions, tier 1 answers with it. -/
theorem latest_at_singleton (L : List LedgerLine) (d p : String) (r : PositionRecord)
    (hrec : recsAt L d = [r]) (hid : r.id = some 0) (hpos : r.positions ≠ []) :
    get_latest_position (some L) d p = (r.positions, 0) := by
  have hscan : scanDate L d = (0, r.positions) := by
    rw [scanDate_eq_fold, hrec]
    norm_num [scanStep2, hid]
  have hcond : 0 ≤ ((0 : Int), r.positions).1 ∧ ((0 : Int), r.positions).2 ≠ [] :=
    ⟨le_refl 0, hpos⟩
  simp only [get_latest_position, hscan]
  rw [if_pos hcond]

theorem dictSet_ne_nil (d : List (String × ℚ)) (k : String) (v : ℚ) :
    dictSet d k v ≠ [] := by
  cases d with
  | nil => simp [dictSet]
  | cons p rest =>
    rw [dictSet]
    split_ifs <;> simp

theorem initPositions_ne_nil (symbols : List String) (cash : ℚ) :
    initPositions symbols cash ≠ [] :=
  dictSet_ne_nil _ _ _

/-- The record appended by `add_no_trade_record`, by fields. -/
theorem add_shape (L : List LedgerLine) (d p : String) :
    ∃ nr : PositionRecord,
      add_no_trade_record (some L) d p = L ++ [some nr] ∧
      nr.date = some d ∧
      nr.positions = (if (get_latest_position (some L) d p).1 = [] then
          [("CASH", defaultInitialCash)] else (get_latest_position (some L) d p).1) ∧
      nr.id = some ((if (get_latest_position (some L) d p).1 = [] then 0
          else (get_latest_position (some L) d p).2) + 1) :=
  ⟨_, add_no_trade_record_eq (some L) d p, rfl, rfl, rfl⟩

/-- One no-trade append preserves the reachable-ledger invariant. -/
theorem add_step (init : String) (P : String → Prop) (L : List LedgerLine) (d p : String)
    (hA : ∀ r ∈ recordsOf L, 0 ≤ r.id.getD (-1) ∧ r.positions ≠ [])
    (hS : DateShape init P L) (hd : ¬ P d) :
    (∀ r ∈ recordsOf (add_no_trade_record (some L) d p),
        0 ≤ r.id.getD (-1) ∧ r.positions ≠ []) ∧
      DateShape init (fun x => x = d ∨ P x) (add_no_trade_record (some L) d p) := by
  obtain ⟨nr, hadd, hdte, hpos, hid⟩ := add_shape L d p
  have hgood : 0 ≤ nr.id.getD (-1) ∧ nr.positions ≠ [] := by
    by_cases hb : (get_latest_position (some L) d p).1 = []
    · constructor
      · rw [hid, if_pos hb]
        simp
      · rw [hpos, if_pos hb]
        simp
    · have h2 : 0 ≤ (get_latest_position (some L) d p).2 :=
        (latest_good L hA d p).resolve_left hb
      constructor
      · rw [hid, if_neg hb]
        simp only [Option.getD_some]
        omega
      · rw [hpos, if_neg hb]
        exact hb
  constructor
  · intro r hr
    rw [hadd, recordsOf_append_single] at hr
    rcases List.mem_append.mp hr with h | h
    · exact hA r h
    · have := List.mem_singleton.mp h
      subst this
      exact hgood
  · intro d'
    by_cases hdd : d' = d
    · subst hdd
      have hrecsd : recsAt (add_no_trade_record (some L) d' p) d' =
          recsAt L d' ++ [nr] := by
        rw [hadd, recsAt_append_single, hdte]
        simp
      refine ⟨?_, ?_, ?_, ?_⟩
      · rintro ⟨_, hn⟩
        exact absurd (Or.inl rfl) hn
      · rintro ⟨hinit, _⟩
        obtain ⟨r₀, hr₀, hr₀id⟩ := (hS d').1 ⟨hinit, hd⟩
        have hr₀mem : r₀ ∈ recordsOf L := by
          have hm : r₀ ∈ recsAt L d' := by
            rw [hr₀]
            exact List.mem_singleton.mpr rfl
          exact List.mem_of_mem_filter hm
        have hr₀pos : r₀.positions ≠ [] := (hA r₀ hr₀mem).2
        have hlat : get_latest_position (some L) d' p = (r₀.positions, 0) :=
          latest_at_singleton L d' p r₀ hr₀ hr₀id hr₀pos
        have hb : ¬ (get_latest_position (some L) d' p).1 = [] := by
          rw [hlat]
          exact hr₀pos
        have hnid : nr.id = some 1 := by
          rw [hid, if_neg hb, hlat]
          norm_num
        exact ⟨r₀, nr, by rw [hrecsd, hr₀]; rfl, hr₀id, hnid⟩
      · rintro ⟨hne, _⟩
        have hold : recsAt L d' = [] := (hS d').2.2.2 ⟨hne, hd⟩
        exact ⟨nr, by rw [hrecsd, hold]; rfl⟩
      · rintro ⟨_, hn⟩
        exact absurd (Or.inl rfl) hn
    · have hrecs : recsAt (add_no_trade_record (some L) d p) d' = recsAt L d' := by
        rw [hadd, recsAt_append_single, hdte]
        rw [if_neg (by simpa using fun h : d = d' => hdd h.symm)]
        simp
      obtain ⟨c1, c2, c3, c4⟩ := hS d'
      refine ⟨?_, ?_, ?_, ?_⟩
      · rintro ⟨hi, hn⟩
        obtain ⟨r, hr, hid0⟩ := c1 ⟨hi, fun hp => hn (Or.inr hp)⟩
        exact ⟨r, by rw [hrecs]; exact hr, hid0⟩
      · rintro ⟨hi, hp⟩
        obtain ⟨r, s', hr, h0, h1⟩ := c2 ⟨hi, (or_iff_right hdd).mp hp⟩
        exact ⟨r, s', by rw [hrecs]; exact hr, h0, h1⟩
      · rintro ⟨hi, hp⟩
        obtain ⟨r, hr⟩ := c3 ⟨hi, (or_iff_right hdd).mp hp⟩
        exact ⟨r, by rw [hrecs]; exact hr⟩
      · rintro ⟨hi, hn⟩
        rw [hrecs]
        exact c4 ⟨hi, fun hp => hn (Or.inr hp)⟩

theorem DateShape_ext (init : String) (P Q : String → Prop) (L : List LedgerLine)
    (h : DateShape init P L) (hpq : ∀ x, P x ↔ Q x) : DateShape init Q L := by
  intro d
  obtain ⟨c1, c2, c3, c4⟩ := h d
  exact ⟨fun ⟨hi, hn⟩ => c1 ⟨hi, fun hp => hn ((hpq d).mp hp)⟩,
    fun ⟨hi, hq⟩ => c2 ⟨hi, (hpq d).mpr hq⟩,
    fun ⟨hi, hq⟩ => c3 ⟨hi, (hpq d).mpr hq⟩,
    fun ⟨hi, hn⟩ => c4 ⟨hi, fun hp => hn ((hpq d).mp hp)⟩⟩

theorem applyAdds_invariant (init : String) :
    ∀ (adds : List (String × String)) (P : String → Prop) (L : List LedgerLine),
      (∀ r ∈ recordsOf L, 0 ≤ r.id.getD (-1) ∧ r.positions ≠ []) →
      DateShape init P L →
      (∀ a ∈ adds, ¬ P a.1) →
      (adds.map Prod.fst).Nodup →
      (∀ r ∈ recordsOf (applyAdds L adds), 0 ≤ r.id.getD (-1) ∧ r.positions ≠ []) ∧
        DateShape init (fun x => P x ∨ x ∈ adds.map Prod.fst) (applyAdds L adds) := by
  intro adds
  induction adds with
  | nil =>
    intro P L hA hS _ _
    refine ⟨hA, DateShape_ext init P _ L hS ?_⟩
    intro x
    simp
  | cons a rest ih =>
    intro P L hA hS hp hnd
    have hstep := add_step init P L a.1 a.2 hA hS (hp a (List.mem_cons_self a rest))
    have hnd' : (rest.map Prod.fst).Nodup := by
      rw [List.map_cons] at hnd
      exact (List.nodup_cons.mp hnd).2
    have hnotmem : a.1 ∉ rest.map Prod.fst := by
      rw [List.map_cons] at hnd
      exact (List.nodup_cons.mp hnd).1
    have hp' : ∀ b ∈ rest, ¬ (b.1 = a.1 ∨ P b.1) := by
      intro b hb
      rintro (heq | hPb)
      · exact hnotmem (heq ▸ List.mem_map_of_mem Prod.fst hb)
      · exact hp b (List.mem_cons_of_mem a hb) hPb
    have hrest := ih (fun x => x = a.1 ∨ P x) (add_no_trade_record (some L) a.1 a.2)
      hstep.1 hstep.2 hp' hnd'
    refine ⟨hrest.1, DateShape_ext init _ _ _ hrest.2 ?_⟩
    intro x
    rw [List.map_cons]
    simp only [List.mem_cons]
    tauto

/-- C4: on every ledger reached by `register_agent` followed by no-trade
appends on pairwise-distinct dates, the ids at each fixed date are strictly
increasing in file order (hence unique, and the maximum identifies the
latest state) and the maximum id at a date is the date's base (first) id
plus the number of snapshots at that date minus one. -/
theorem monotonic_ids_per_date (symbols : List String) (cash : ℚ) (initDate : String)
    (adds : List (String × String)) (hnd : (adds.map Prod.fst).Nodup) (d : String) :
    List.Chain' (· < ·)
        (idsAt (applyAdds (register_agent none symbols cash initDate) adds) d) ∧
      (idsAt (applyAdds (register_agent none symbols cash initDate) adds) d ≠ [] →
        (idsAt (applyAdds (register_agent none symbols cash initDate) adds) d).getLast?.getD 0 =
          (idsAt (applyAdds (register_agent none symbols cash initDate) adds) d).headD 0 +
            (((idsAt (applyAdds (register_agent none symbols cash initDate) adds) d).length -
              1 : ℕ) : Int)) := by
  have hA0 : ∀ r ∈ recordsOf (register_agent none symbols cash initDate),
      0 ≤ r.id.getD (-1) ∧ r.positions ≠ [] := by
    intro r hr
    have hr' : r = ⟨some initDate, some 0, none, initPositions symbols cash⟩ := by
      simpa [register_agent, recordsOf] using hr
    subst hr'
    exact ⟨by simp, initPositions_ne_nil symbols cash⟩
  have hS0 : DateShape initDate (fun _ => False) (register_agent none symbols cash initDate) := by
    intro d0
    refine ⟨?_, ?_, ?_, ?_⟩
    · rintro ⟨hdi, _⟩
      subst hdi
      exact ⟨⟨some d0, some 0, none, initPositions symbols cash⟩,
        by simp [recsAt, recordsOf, register_agent], rfl⟩
    · rintro ⟨_, h⟩
      exact h.elim
    · rintro ⟨_, h⟩
      exact h.elim
    · rintro ⟨hne, _⟩
      simp [recsAt, recordsOf, register_agent, Ne.symm hne]
  obtain ⟨hA, hS⟩ := applyAdds_invariant initDate adds (fun _ => False)
    (register_agent none symbols cash initDate) hA0 hS0 (fun a _ => not_false) hnd
  obtain ⟨c1, c2, c3, c4⟩ := hS d
  by_cases hdi : d = initDate
  · by_cases hdm : d ∈ adds.map Prod.fst
    · obtain ⟨r, s', hrec, h0, h1⟩ := c2 ⟨hdi, Or.inr hdm⟩
      rw [idsAt, hrec]
      constructor
      · simp only [List.map_cons, List.map_nil, h0, h1, Option.getD_some]
        norm_num [List.chain'_cons, List.chain'_singleton]
      · intro _
        simp only [List.map_cons, List.map_nil, h0, h1, Option.getD_some]
        decide
    · obtain ⟨r, hrec, h0⟩ := c1 ⟨hdi, by simp [hdm]⟩
      rw [idsAt, hrec]
      constructor
      · simp
      · intro _
        simp only [List.map_cons, List.map_nil, h0, Option.getD_some]
        decide
  · by_cases hdm : d ∈ adds.map Prod.fst
    · obtain ⟨r, hrec⟩ := c3 ⟨hdi, Or.inr hdm⟩
      rw [idsAt, hrec]
      constructor
      · simp
      · intro _
        simp
    · have hrec := c4 ⟨hdi, by simp [hdm]⟩
      rw [idsAt, hrec]
      exact ⟨by simp, by simp⟩

/-- Witness for C4 on a concrete one-append run. -/
theorem monotonic_ids_per_date_witness :
    List.Chain' (· < ·)
      (idsAt (applyAdds (register_agent none ["600519.SH"] 100000 "2025-10-09")
        [("2025-10-10", "2025-10-09")]) "2025-10-10") :=
  (monotonic_ids_per_date ["600519.SH"] 100000 "2025-10-09"
    [("2025-10-10", "2025-10-09")] (by decide) "2025-10-10").1

/-! ## C2: previous-trading-day lookup -/

/-- C2 (code bug): on the repository's own price-file format — daily bars
keyed by date-only strings — `get_yesterday_date` never uses the data.
Every stored key fails the `"%Y-%m-%d %H:%M:%S"` parse inside the loop, so
with the store holding exactly the timestamp "2025-10-09" (strictly earlier
than the query "2025-10-15"), the function answers the calendar fallback
"2025-10-14" instead of the stored previous trading day, contradicting its
own documented data-first strategy. -/
theorem get_yesterday_date_daily_fallback :
    get_yesterday_date (some dailyStoreCex) "2025-10-15" ⟨2025, 10, 15, 12, 0, 0⟩ =
      "2025-10-14" ∧
    collectTimestamps dailyStoreCex = ["2025-10-09"] ∧
    strLtb "2025-10-09" "2025-10-15" = true ∧
    ("2025-10-14" : String) ≠ "2025-10-09" := by
  refine ⟨by decide, by decide, by decide, by decide⟩

end NoFX
